import Mathlib

/-!
# A shallow embedding of the PicoEmulator assembly virtual machine

This file embeds the `PicoEmulator` class of `src/emulator.py` (repository
`GnuPixie/pC_emu`) into Lean 4 and proves properties of its parser
(`parse`), stepwise interpreter (`step`) and input-injection entry point
(`provide_input`).

Modelling conventions:
* Python exceptions are modelled with `Except String`; an `Except.error`
  escaping a top-level operation models an uncaught Python exception
  crossing the engine boundary, while `step` itself catches the errors of
  instruction execution internally (mirroring its `try/except`).
* `memory` (`self.memory = [0] * 65536`) is a total function `Nat → Int`
  over the cells `0..65535`; `memRead`/`memWrite` reproduce Python list
  indexing, including negative-index wrap-around and `IndexError` for
  indices outside `-65536..65535`.
* Python dicts (`registers`, `labels`, `instructions`) are association
  lists; assignment conses at the front so that `List.lookup` sees the
  most recent binding, matching dict overwrite semantics (iteration order
  is never observed by the emulator).
* `touched_memory` (a Python `set`) is kept as a list of added addresses;
  the emulator never reads it, so duplicates are irrelevant.
* Python `//` (floor division) is `Int.fdiv`; `str(int)` is `toString`.
-/

namespace Pico

/-- The Python whitespace characters relevant to `str.strip`/`str.split`. -/
def isSpaceChar (c : Char) : Bool :=
  c = ' ' || c = '\t' || c = '\n' || c = '\r'

/-- Drop leading whitespace characters. -/
def dropSpaces : List Char → List Char
  | [] => []
  | c :: cs => if isSpaceChar c then dropSpaces cs else c :: cs

/-- Python `str.strip()` on the character list. -/
def stripChars (cs : List Char) : List Char :=
  dropSpaces ((dropSpaces cs.reverse).reverse)

/-- Python `str.strip()`. -/
def pyStrip (s : String) : String := ⟨stripChars s.data⟩

/-- Python `str.upper()` (the emulator only meets ASCII text). -/
def pyUpper (s : String) : String := ⟨s.data.map Char.toUpper⟩

/-- Helper for `pySplitChar`: accumulate the current piece (reversed). -/
def splitCharAux (sep : Char) : List Char → List Char → List (List Char)
  | [], acc => [acc.reverse]
  | c :: cs, acc =>
    if c = sep then acc.reverse :: splitCharAux sep cs []
    else splitCharAux sep cs (c :: acc)

/-- Python `s.split(sep)` for a one-character separator (all occurrences). -/
def pySplitChar (s : String) (sep : Char) : List String :=
  (splitCharAux sep s.data []).map String.mk

/-- Helper for `pySplitWs`. -/
def splitWsAux : List Char → List Char → List (List Char)
  | [], [] => []
  | [], acc => [acc.reverse]
  | c :: cs, acc =>
    if isSpaceChar c then
      match acc with
      | [] => splitWsAux cs []
      | _ => acc.reverse :: splitWsAux cs []
    else splitWsAux cs (c :: acc)

/-- Python `s.split()` with no argument: split on whitespace runs,
dropping empty pieces. -/
def pySplitWs (s : String) : List String :=
  (splitWsAux s.data []).map String.mk

/-- Python `s.split(maxsplit=1)`: at most one split on the first
whitespace run, leading whitespace skipped.  Used by the instruction
tokenizer (`line.split(maxsplit=1)`). -/
def splitFirst (s : String) : List String :=
  match dropSpaces s.data with
  | [] => []
  | cs =>
    let tok := cs.takeWhile (fun c => !isSpaceChar c)
    let rest := dropSpaces (cs.dropWhile (fun c => !isSpaceChar c))
    if rest.isEmpty then [⟨tok⟩] else [⟨tok⟩, ⟨rest⟩]

/-- Python `str.isdigit()` for ASCII text: non-empty, all digits. -/
def pyIsDigit (s : String) : Bool :=
  !s.data.isEmpty && s.data.all Char.isDigit

/-- Decimal digits to a natural number. -/
def digitsToNat (cs : List Char) : Nat :=
  cs.foldl (fun n c => n * 10 + (c.toNat - 48)) 0

/-- Python `int(s)` on ASCII strings: surrounding whitespace stripped,
optional sign, at least one digit; `none` models a raised `ValueError`. -/
def pyInt (s : String) : Option Int :=
  match stripChars s.data with
  | '-' :: rest =>
    if !rest.isEmpty && rest.all Char.isDigit then some (-(digitsToNat rest : Int)) else none
  | '+' :: rest =>
    if !rest.isEmpty && rest.all Char.isDigit then some (digitsToNat rest : Int) else none
  | cs =>
    if !cs.isEmpty && cs.all Char.isDigit then some (digitsToNat cs : Int) else none

/-- The numeric-literal test used by `resolve_symbol` and `resolve_value`:
`token.isdigit() or (token.startswith("-") and token[1:].isdigit())`. -/
def isNumericToken (t : String) : Bool :=
  pyIsDigit t ||
    (match t.data with
     | '-' :: rest => pyIsDigit ⟨rest⟩
     | _ => false)

/-- `int(token)` for a token that passed `isNumericToken`. -/
def tokenToInt (t : String) : Int :=
  match t.data with
  | '-' :: rest => -(digitsToNat rest : Int)
  | cs => (digitsToNat cs : Int)

/-- `"(" … ")"`-wrapped test: `operand.startswith("(") and operand.endswith(")")`. -/
def parenWrapped (t : String) : Bool :=
  t.data.head? = some '(' && t.data.getLast? = some ')'

/-- Python `s[1:-1]`, used on paren-wrapped operands. -/
def interior (t : String) : String := ⟨(t.data.drop 1).dropLast⟩

/-- `len(self.memory)`: the emulator's memory size, `[0] * 65536`. -/
def MEM_SIZE : Int := 65536

/-- Python list read `self.memory[i]` on the 65536-cell memory list:
non-negative indices below 65536 read directly, indices in
`-65536..-1` wrap around, anything else raises `IndexError`. -/
def memRead (m : Nat → Int) (i : Int) : Except String Int :=
  if 0 ≤ i ∧ i < MEM_SIZE then .ok (m i.toNat)
  else if -MEM_SIZE ≤ i ∧ i < 0 then .ok (m (i + MEM_SIZE).toNat)
  else .error "list index out of range"

/-- Python list write `self.memory[i] = v`, with the same index rules as
`memRead`. -/
def memWrite (m : Nat → Int) (i : Int) (v : Int) : Except String (Nat → Int) :=
  if 0 ≤ i ∧ i < MEM_SIZE then
    .ok (fun n => if n = i.toNat then v else m n)
  else if -MEM_SIZE ≤ i ∧ i < 0 then
    .ok (fun n => if n = (i + MEM_SIZE).toNat then v else m n)
  else .error "list assignment index out of range"

/-- One stored instruction: `{"text": line, "line_no": idx + 1}`. -/
structure InstrData where
  text : String
  line_no : Nat
deriving DecidableEq, Repr

/-- The emulator state: the instance attributes set by
`PicoEmulator.reset`. -/
structure PicoState where
  memory : Nat → Int
  pc : Int
  sp : Int
  registers : List (String × Int)
  labels : List (String × Int)
  instructions : List (Int × InstrData)
  is_running : Bool
  is_finished : Bool
  output_buffer : List String
  last_error : String
  input_needed : Int
  input_dest_addr : Int
  touched_memory : List Int

/-- `PicoEmulator.reset()`. -/
def initState : PicoState where
  memory := fun _ => 0
  pc := 0
  sp := 65500
  registers := []
  labels := []
  instructions := []
  is_running := false
  is_finished := false
  output_buffer := []
  last_error := ""
  input_needed := 0
  input_dest_addr := 0
  touched_memory := []

/-- `PicoEmulator.parse`, one line: comment stripping, then (in this
order) assignment (`=`), `ORG`, label (`:`), instruction store.  Returns
the updated state and instruction-address counter. -/
def parseLine (st : PicoState) (current_address : Int) (idx : Nat)
    (rawLine : String) : PicoState × Int :=
  let line := pyStrip ((pySplitChar rawLine ';').headD "")
  if line = "" then (st, current_address)
  else if line.data.contains '=' then
    -- Variable definition (e.g. A = 10): split on "="; parts[1] exists
    -- because the line contains "=".
    let parts := pySplitChar line '='
    let name := pyUpper (pyStrip (parts.headD ""))
    match pyInt (pyStrip ((parts.drop 1).headD "")) with
    | some val =>
      let st := { st with registers := (name, val) :: st.registers }
      if 0 ≤ val ∧ val < MEM_SIZE then
        ({ st with
            memory := fun n => if n = val.toNat then 0 else st.memory n
            touched_memory := val :: st.touched_memory }, current_address)
      else (st, current_address)
    | none => (st, current_address)
  else if ("ORG".data).isPrefixOf (pyUpper line).data then
    -- ORG directive: parts = line.split(); int(parts[1]) failing (missing
    -- or malformed) is swallowed by the bare except.
    match (pySplitWs line).get? 1 with
    | none => (st, current_address)
    | some tok =>
      match pyInt tok with
      | none => (st, current_address)
      | some a => ({ st with pc := a }, a)
  else
    -- Label definition handling, then instruction store.
    let (st, line) :=
      if line.data.contains ':' then
        let pieces := pySplitChar line ':'
        let label_name := pyUpper (pyStrip (pieces.headD ""))
        let instr_part := String.intercalate ":" (pieces.drop 1)
        ({ st with labels := (label_name, current_address) :: st.labels },
         pyStrip instr_part)
      else (st, line)
    if line = "" then (st, current_address)
    else
      ({ st with
          instructions :=
            (current_address, { text := line, line_no := idx + 1 }) :: st.instructions },
       current_address + 1)

/-- `PicoEmulator.parse(source_code)`: reset, then a single pass over the
lines. -/
def parse (source_code : String) : PicoState :=
  ((pySplitChar source_code '\n').enum.foldl
    (fun acc p => parseLine acc.1 acc.2 p.1 p.2) (initState, 0)).1

/-- `PicoEmulator.resolve_symbol`: numeric literal, else symbol table,
else label table, else `ValueError("Unknown symbol: …")`. -/
def resolve_symbol (st : PicoState) (token : String) : Except String Int :=
  let t := pyUpper (pyStrip token)
  if isNumericToken t then .ok (tokenToInt t)
  else
    match List.lookup t st.registers with
    | some v => .ok v
    | none =>
      match List.lookup t st.labels with
      | some v => .ok v
      | none => .error s!"Unknown symbol: {t}"

/-- `PicoEmulator.resolve_value`: indirect `(A)`, immediate `#…`, numeric
literal, or direct memory read. -/
def resolve_value (st : PicoState) (operand0 : String) : Except String Int :=
  let operand := pyUpper (pyStrip operand0)
  if parenWrapped operand then
    match resolve_symbol st (interior operand) with
    | .error e => .error e
    | .ok ptr_loc =>
      match memRead st.memory ptr_loc with
      | .error e => .error e
      | .ok real_addr =>
        if 0 ≤ real_addr ∧ real_addr < MEM_SIZE then .ok (st.memory real_addr.toNat)
        else .error s!"Indirect access out of bounds: {real_addr}"
  else if operand.data.head? = some '#' then
    resolve_symbol st ⟨operand.data.drop 1⟩
  else if isNumericToken operand then .ok (tokenToInt operand)
  else
    match resolve_symbol st operand with
    | .error e => .error e
    | .ok addr =>
      if 0 ≤ addr ∧ addr < MEM_SIZE then .ok (st.memory addr.toNat)
      else .error s!"Memory access out of bounds: {addr}"

/-- `PicoEmulator.resolve_write_target`: the memory index a write goes
to — indirect `(A)` reads the pointer cell, direct uses the symbol value. -/
def resolve_write_target (st : PicoState) (operand0 : String) : Except String Int :=
  let operand := pyUpper (pyStrip operand0)
  if parenWrapped operand then
    match resolve_symbol st (interior operand) with
    | .error e => .error e
    | .ok ptr_loc => memRead st.memory ptr_loc
  else resolve_symbol st operand

/-- `PicoEmulator.set_value`: resolve the write target and store, with an
explicit bounds check. -/
def set_value (st : PicoState) (operand : String) (value : Int) :
    Except String PicoState :=
  match resolve_write_target st operand with
  | .error e => .error e
  | .ok dest_addr =>
    if 0 ≤ dest_addr ∧ dest_addr < MEM_SIZE then
      .ok { st with
              memory := fun n => if n = dest_addr.toNat then value else st.memory n
              touched_memory := dest_addr :: st.touched_memory }
    else .error s!"Memory write out of bounds: {dest_addr}"

/-- `PicoEmulator.provide_input`: `int(value)` failing (`ValueError`) is
caught and reported as `false`; the unguarded `self.memory[self.input_dest_addr] = val`
can raise `IndexError`, which the `except ValueError` clause does NOT
catch — that exception escapes to the caller (`Except.error`). -/
def provide_input (st : PicoState) (value : String) :
    Except String (Bool × PicoState) :=
  if st.input_needed > 0 then
    match pyInt value with
    | none => .ok (false, st)
    | some val =>
      match memWrite st.memory st.input_dest_addr val with
      | .error e => .error e
      | .ok mem =>
        let st := { st with
                      memory := mem
                      touched_memory := st.input_dest_addr :: st.touched_memory
                      input_dest_addr := st.input_dest_addr + 1
                      input_needed := st.input_needed - 1 }
        if st.input_needed = 0 then .ok (true, { st with pc := st.pc + 1 })
        else .ok (true, st)
  else .ok (false, st)

/-- Python list indexing `args[i]` with a non-negative literal index:
`IndexError` when past the end. -/
def pyIdx (l : List String) (i : Nat) : Except String String :=
  match l.get? i with
  | some x => .ok x
  | none => .error "list index out of range"

/-- The outcome of executing one decoded instruction inside `step`'s
`try` block: fall through to `self.pc = next_pc` with the recorded
`next_pc`, early-`return` (a suspending `IN`), or a raised exception
(carrying the partially mutated state, since completed writes are not
rolled back). -/
inductive StepOutcome where
  | normal (st : PicoState) (next_pc : Int)
  | suspend (st : PicoState)
  | raised (st : PicoState) (msg : String)

/-- Whether an execution outcome fell through to the default
`self.pc = next_pc` assignment: no exception was raised and no input
suspension happened. -/
def StepOutcome.isNormal : StepOutcome → Bool
  | .normal _ _ => true
  | _ => false

/-- `MOV Dest, Src`. -/
def execMOV (st : PicoState) (args : List String) (next_pc : Int) : StepOutcome :=
  match pyIdx args 1 with
  | .error e => .raised st e
  | .ok a1 =>
    match resolve_value st a1 with
    | .error e => .raised st e
    | .ok val =>
      match pyIdx args 0 with
      | .error e => .raised st e
      | .ok a0 =>
        match set_value st a0 val with
        | .error e => .raised st e
        | .ok st' => .normal st' next_pc

/-- `ADD/SUB/MUL/DIV Dest, Src1, Src2` (`res` defaults to `0` exactly as
in the Python if/elif chain). -/
def execArith (st : PicoState) (opcode : String) (args : List String)
    (next_pc : Int) : StepOutcome :=
  match pyIdx args 1 with
  | .error e => .raised st e
  | .ok a1 =>
    match resolve_value st a1 with
    | .error e => .raised st e
    | .ok val1 =>
      match pyIdx args 2 with
      | .error e => .raised st e
      | .ok a2 =>
        match resolve_value st a2 with
        | .error e => .raised st e
        | .ok val2 =>
          let res : Except String Int :=
            if opcode = "ADD" then .ok (val1 + val2)
            else if opcode = "SUB" then .ok (val1 - val2)
            else if opcode = "MUL" then .ok (val1 * val2)
            else if opcode = "DIV" then
              if val2 = 0 then .error "Division by zero"
              else .ok (Int.fdiv val1 val2)
            else .ok 0
          match res with
          | .error e => .raised st e
          | .ok r =>
            match pyIdx args 0 with
            | .error e => .raised st e
            | .ok a0 =>
              match set_value st a0 r with
              | .error e => .raised st e
              | .ok st' => .normal st' next_pc

/-- `IN Address[, Count]`: suspend when `count > 0`; otherwise nothing
happens and control falls through to the default PC advance. -/
def execIN (st : PicoState) (args : List String) (next_pc : Int) : StepOutcome :=
  match pyIdx args 0 with
  | .error e => .raised st e
  | .ok a0 =>
    match resolve_write_target st a0 with
    | .error e => .raised st e
    | .ok target_addr =>
      let countE : Except String Int :=
        if args.length > 1 then
          match pyIdx args 1 with
          | .error e => .error e
          | .ok a1 => resolve_value st a1
        else .ok 1
      match countE with
      | .error e => .raised st e
      | .ok count =>
        if count > 0 then
          .suspend { st with input_needed := count, input_dest_addr := target_addr }
        else .normal st next_pc

/-- The start-address computation of `OUT` (direct: symbol value;
indirect: pointer cell content, read unguarded). -/
def outStart (st : PicoState) (arg0 : String) : Except String Int :=
  let raw_arg := pyUpper (pyStrip arg0)
  if parenWrapped raw_arg then
    match resolve_symbol st (interior raw_arg) with
    | .error e => .error e
    | .ok ptr_loc => memRead st.memory ptr_loc
  else resolve_symbol st raw_arg

/-- The `for i in range(count)` loop of `OUT`: `curr = start_addr + i`;
only `curr < len(self.memory)` is checked, so negative `curr` reads with
Python wrap-around (and below `-65536` raises `IndexError`). -/
def outLoop (mem : Nat → Int) (start_addr : Int) :
    Nat → Nat → List String → Except String (List String)
  | 0, _, acc => .ok acc
  | k + 1, i, acc =>
    let curr := start_addr + (i : Int)
    if curr < MEM_SIZE then
      match memRead mem curr with
      | .error e => .error e
      | .ok v => outLoop mem start_addr k (i + 1) (acc ++ [toString v])
    else outLoop mem start_addr k (i + 1) acc

/-- Python list indexing normalized to a cell number: non-negative
indices read directly, negative ones wrap around (callers guarantee
`-65536 ≤ j < 65536`). -/
def pyWrapIdx (j : Int) : Nat :=
  if 0 ≤ j then j.toNat else (j + MEM_SIZE).toNat

/-- Specification-side description of the list of values the `OUT` loop
collects: positions `start + i` for `i < k` (starting at `i`), keeping
only those with `start + i < 65536` and reading negative positions with
wrap-around. -/
def outCells (mem : Nat → Int) (start : Int) : Nat → Nat → List String
  | 0, _ => []
  | k + 1, i =>
    if start + (i : Int) < MEM_SIZE then
      toString (mem (pyWrapIdx (start + (i : Int)))) :: outCells mem start k (i + 1)
    else outCells mem start k (i + 1)

/-- `OUT Address[, Count]`: collect the values and append one
space-joined output line. -/
def execOUT (st : PicoState) (args : List String) (next_pc : Int) : StepOutcome :=
  match pyIdx args 0 with
  | .error e => .raised st e
  | .ok a0 =>
    match outStart st a0 with
    | .error e => .raised st e
    | .ok start_addr =>
      let countE : Except String Int :=
        if args.length > 1 then
          match pyIdx args 1 with
          | .error e => .error e
          | .ok a1 => resolve_value st a1
        else .ok 1
      match countE with
      | .error e => .raised st e
      | .ok count =>
        match outLoop st.memory start_addr count.toNat 0 [] with
        | .error e => .raised st e
        | .ok line_out =>
          .normal
            { st with output_buffer := st.output_buffer ++ [String.intercalate " " line_out] }
            next_pc

/-- `BEQ Val1, Val2, Label`: the label is only looked up when the branch
is taken. -/
def execBEQ (st : PicoState) (args : List String) (next_pc : Int) : StepOutcome :=
  match pyIdx args 0 with
  | .error e => .raised st e
  | .ok a0 =>
    match resolve_value st a0 with
    | .error e => .raised st e
    | .ok val1 =>
      match pyIdx args 1 with
      | .error e => .raised st e
      | .ok a1 =>
        match resolve_value st a1 with
        | .error e => .raised st e
        | .ok val2 =>
          match pyIdx args 2 with
          | .error e => .raised st e
          | .ok a2 =>
            let label := pyUpper a2
            if val1 = val2 then
              match List.lookup label st.labels with
              | some addr => .normal st addr
              | none => .raised st s!"Unknown label: {label}"
            else .normal st next_pc

/-- `BGT Val1, Val2, Label`. -/
def execBGT (st : PicoState) (args : List String) (next_pc : Int) : StepOutcome :=
  match pyIdx args 0 with
  | .error e => .raised st e
  | .ok a0 =>
    match resolve_value st a0 with
    | .error e => .raised st e
    | .ok val1 =>
      match pyIdx args 1 with
      | .error e => .raised st e
      | .ok a1 =>
        match resolve_value st a1 with
        | .error e => .raised st e
        | .ok val2 =>
          match pyIdx args 2 with
          | .error e => .raised st e
          | .ok a2 =>
            let label := pyUpper a2
            if val1 > val2 then
              match List.lookup label st.labels with
              | some addr => .normal st addr
              | none => .raised st s!"Unknown label: {label}"
            else .normal st next_pc

/-- `JSR Label`: the stack push and `sp` decrement happen before the
label lookup, so they persist even when the lookup fails. -/
def execJSR (st : PicoState) (args : List String) (next_pc : Int) : StepOutcome :=
  match pyIdx args 0 with
  | .error e => .raised st e
  | .ok a0 =>
    let label := pyUpper a0
    match memWrite st.memory st.sp next_pc with
    | .error e => .raised st e
    | .ok mem =>
      let st := { st with
                    memory := mem
                    touched_memory := st.sp :: st.touched_memory
                    sp := st.sp - 1 }
      match List.lookup label st.labels with
      | some addr => .normal st addr
      | none => .raised st s!"Unknown label: {label}"

/-- `RTS`: increment `sp`, check the upper bound, read the return
address (negative `sp` reads with Python wrap-around). -/
def execRTS (st : PicoState) (_next_pc : Int) : StepOutcome :=
  let st := { st with sp := st.sp + 1 }
  if st.sp ≥ MEM_SIZE then .raised st "Stack underflow"
  else
    match memRead st.memory st.sp with
    | .error e => .raised st e
    | .ok addr => .normal st addr

/-- `STOP [Val]`: set the terminal flag first, then optionally resolve
and report the operand. -/
def execSTOP (st : PicoState) (args : List String) (next_pc : Int) : StepOutcome :=
  let st := { st with is_finished := true }
  match args with
  | [] => .normal st next_pc
  | a0 :: _ =>
    match resolve_value st a0 with
    | .error e => .raised st e
    | .ok val =>
      .normal { st with output_buffer := st.output_buffer ++ [s!"STOP Result: {val}"] }
        next_pc

/-- The opcode dispatch of `step`'s `try` block.  An unrecognized opcode
matches no branch and falls through to the default PC advance. -/
def execInstr (st : PicoState) (opcode : String) (args : List String)
    (next_pc : Int) : StepOutcome :=
  if opcode = "MOV" then execMOV st args next_pc
  else if opcode = "ADD" ∨ opcode = "SUB" ∨ opcode = "MUL" ∨ opcode = "DIV" then
    execArith st opcode args next_pc
  else if opcode = "IN" then execIN st args next_pc
  else if opcode = "OUT" then execOUT st args next_pc
  else if opcode = "BEQ" then execBEQ st args next_pc
  else if opcode = "BGT" then execBGT st args next_pc
  else if opcode = "JSR" then execJSR st args next_pc
  else if opcode = "RTS" then execRTS st next_pc
  else if opcode = "STOP" then execSTOP st args next_pc
  else .normal st next_pc

/-- The argument tokenizer: `parts[1].split(",")` with each piece
stripped, or no arguments when the line is a bare opcode. -/
def argsFrom (rest : List String) : List String :=
  match rest with
  | [] => []
  | r :: _ => (pySplitChar r ',').map pyStrip

/-- The error string recorded at the `step` boundary:
`f"Error line {line_no}: {msg}"`. -/
def errLine (line_no : Nat) (msg : String) : String :=
  "Error line " ++ toString line_no ++ ": " ++ msg

/-- The error string for fetching a PC with no instruction:
`f"End of program or invalid PC: {self.pc}"`. -/
def endMsg (pc : Int) : String :=
  "End of program or invalid PC: " ++ toString pc

/-- `PicoEmulator.step`: fetch, tokenize, dispatch; every exception of
the dispatch is caught and recorded as `last_error` + `is_finished`.
The only statement outside the `try` block that can raise is `parts[0]`
on a blank instruction text (never produced by `parse`), modelled as the
`Except.error` result. -/
def step (st : PicoState) : Except String PicoState :=
  if st.is_finished ∨ st.input_needed > 0 then .ok st
  else
    match List.lookup st.pc st.instructions with
    | none =>
      .ok { st with
              last_error := endMsg st.pc
              is_finished := true }
    | some instr =>
      match splitFirst instr.text with
      | [] => .error "list index out of range"
      | p0 :: rest =>
        let opcode := pyUpper p0
        let args := argsFrom rest
        match execInstr st opcode args (st.pc + 1) with
        | .normal st' npc => .ok { st' with pc := npc }
        | .suspend st' => .ok st'
        | .raised st' e =>
          .ok { st' with
                  last_error := errLine instr.line_no e
                  is_finished := true }

/-- Iterate `step` `n` times (propagating an escaped exception). -/
def stepN : Nat → PicoState → Except String PicoState
  | 0, st => .ok st
  | n + 1, st =>
    match step st with
    | .error e => .error e
    | .ok st' => stepN n st'

/-- Driver: feed a list of input strings through `provide_input`,
requiring each to be accepted (an escaped exception or a rejected input
aborts the run). -/
def feedAll : PicoState → List String → Except String PicoState
  | st, [] => .ok st
  | st, v :: vs =>
    match provide_input st v with
    | .ok (true, st') => feedAll st' vs
    | .ok (false, _) => .error "input rejected"
    | .error e => .error e

/-! ## Concrete programs used in the theorems -/

/-- The Euclidean-GCD demonstration program of the specification. -/
def gcdSrc : String :=
  "M = 1\nN = 2\nR = 3\nORG 10\nIN M, 2\nLOOP:\nDIV R, M, N\nMUL R, R, N\nSUB R, M, R\nMOV M, N\nMOV N, R\nBGT R, 0, LOOP\nOUT M, 1\nSTOP"

/-- The GCD scenario run: `parse`, one `step` (the `IN`), the two inputs
`25` and `10`, then stepping to completion (20 steps is more than
enough; `step` on a finished machine is a no-op).  Records whether each
`provide_input` was accepted. -/
def gcdRun : Except String (Bool × Bool × PicoState) := do
  let s0 := parse gcdSrc
  let s1 ← step s0
  let (b1, s2) ← provide_input s1 "25"
  let (b2, s3) ← provide_input s2 "10"
  let sf ← stepN 20 s3
  pure (b1, b2, sf)

/-! ## C1: the GCD end-to-end scenario -/

/-- C1: for the GCD program of spec §8, after `parse` and `step`/
`provide_input` with inputs 25 then 10, execution terminates with
`is_finished = true`, empty `last_error`, and the single OUT-produced
output line `"5"`. -/
theorem gcd_end_to_end :
    gcdRun.map
      (fun r => (r.1, r.2.1, r.2.2.is_finished, r.2.2.last_error, r.2.2.output_buffer))
      = .ok (true, true, true, "", ["5"]) := by
  rfl

/-! ## C3, C7, C8: counterexamples -/

/-- Counterexample to C3: from the reachable state produced by
`parse "A = 65535\nIN A, 2"`, one `step` and one accepted input, the
second `provide_input` call performs `self.memory[65536] = 2`, raising
an `IndexError` that the `except ValueError` clause does not catch — an
exception crosses the engine boundary instead of a `false` return. -/
theorem provide_input_raises_counterexample :
    (do
      let s1 ← step (parse "A = 65535\nIN A, 2")
      let p ← provide_input s1 "1"
      let q ← provide_input p.2 "2"
      pure q.1 : Except String Bool) = .error "list assignment index out of range" := by
  rfl

/-- Counterexample to C7: executing `IN A, 0` (count resolves to 0) does
NOT leave the PC unmodified — no suspension occurs, but control falls
through to the default `self.pc = next_pc`, so the PC advances from 0 to
1 instead of refetching the same instruction. -/
theorem in_zero_count_counterexample :
    (parse "A = 5\nIN A, 0").pc = 0 ∧
    (step (parse "A = 5\nIN A, 0")).map
      (fun t => (t.pc, t.input_needed, t.is_finished, t.last_error))
      = .ok (1, 0, false, "") := by
  exact ⟨rfl, rfl⟩

/-- Counterexample to C8: for `OUT A, 1` with `A = -1`, the position
`-1` lies outside the memory bounds `0..65535`, so by the claim it
should be skipped, making the output line `""`; the code only checks
`curr < len(self.memory)`, so `memory[-1]` is read with Python
wrap-around (cell 65535) and the line is `"0"`. -/
theorem out_skip_counterexample :
    (step (parse "A = -1\nOUT A, 1")).map
      (fun t => (t.output_buffer, t.last_error)) = .ok (["0"], "") ∧
    ("0" : String) ≠ "" := by
  exact ⟨rfl, by decide⟩

/-! ## Shared reduction lemmas -/

/-- `step` on a runnable machine with a fetched, tokenizable instruction
reduces to the dispatch outcome. -/
theorem step_exec (st : PicoState) (instr : InstrData) (p0 : String) (rest : List String)
    (hf : st.is_finished = false) (hn : st.input_needed ≤ 0)
    (hfetch : List.lookup st.pc st.instructions = some instr)
    (hsplit : splitFirst instr.text = p0 :: rest) :
    step st =
      match execInstr st (pyUpper p0) (argsFrom rest) (st.pc + 1) with
      | .normal st' npc => .ok { st' with pc := npc }
      | .suspend st' => .ok st'
      | .raised st' e =>
        .ok { st' with last_error := errLine instr.line_no e, is_finished := true } := by
  unfold step
  rw [if_neg (by simp [hf]; omega)]
  rw [hfetch]
  dsimp only
  rw [hsplit]

theorem execInstr_MOV (st : PicoState) (args : List String) (npc : Int) :
    execInstr st "MOV" args npc = execMOV st args npc := rfl

theorem execInstr_DIV (st : PicoState) (args : List String) (npc : Int) :
    execInstr st "DIV" args npc = execArith st "DIV" args npc := rfl

theorem execInstr_IN (st : PicoState) (args : List String) (npc : Int) :
    execInstr st "IN" args npc = execIN st args npc := rfl

theorem execInstr_OUT (st : PicoState) (args : List String) (npc : Int) :
    execInstr st "OUT" args npc = execOUT st args npc := rfl

theorem execInstr_BEQ (st : PicoState) (args : List String) (npc : Int) :
    execInstr st "BEQ" args npc = execBEQ st args npc := rfl

theorem execInstr_BGT (st : PicoState) (args : List String) (npc : Int) :
    execInstr st "BGT" args npc = execBGT st args npc := rfl

/-- The `step`-boundary error string is never empty. -/
theorem errLine_ne_empty (n : Nat) (msg : String) : errLine n msg ≠ "" := by
  intro h
  have h2 := congrArg String.data h
  simp [errLine, String.data_append] at h2

/-! ## C9: assignment checked before ORG during parsing -/

/-- C9: directive detection checks `=` before `ORG` before `:`; hence a
line `ORG=5` is parsed as the assignment `ORG -> 5`: the symbol table
gains `ORG = 5`, while the instruction-address counter, the initial pc
and the instruction table are all left unchanged (no instruction slot is
consumed). -/
theorem assignment_precedence_org (st : PicoState) (a : Int) (idx : Nat) :
    List.lookup "ORG" (parseLine st a idx "ORG=5").1.registers = some 5 ∧
    (parseLine st a idx "ORG=5").2 = a ∧
    (parseLine st a idx "ORG=5").1.pc = st.pc ∧
    (parseLine st a idx "ORG=5").1.instructions = st.instructions ∧
    (parseLine st a idx "ORG=5").1.labels = st.labels := by
  exact ⟨rfl, rfl, rfl, rfl, rfl⟩

/-! ## C10: untaken branches never look the label up -/

/-- C10: a `BEQ`/`BGT` whose comparison is false never fails with an
unknown-label error — the label operand `a2` is arbitrary and the label
table is not consulted — and the step is exactly the default PC advance
with no other state change. -/
theorem branch_untaken_no_lookup (st : PicoState) (instr : InstrData)
    (p0 r a0 a1 a2 : String) (v1 v2 : Int)
    (hf : st.is_finished = false) (hn : st.input_needed ≤ 0)
    (hfetch : List.lookup st.pc st.instructions = some instr)
    (hsplit : splitFirst instr.text = [p0, r])
    (hargs : argsFrom [r] = [a0, a1, a2])
    (hv1 : resolve_value st a0 = .ok v1)
    (hv2 : resolve_value st a1 = .ok v2)
    (hop : (pyUpper p0 = "BEQ" ∧ v1 ≠ v2) ∨ (pyUpper p0 = "BGT" ∧ ¬ v1 > v2)) :
    step st = .ok { st with pc := st.pc + 1 } := by
  rw [step_exec st instr p0 [r] hf hn hfetch hsplit, hargs]
  rcases hop with ⟨hop, hne⟩ | ⟨hop, hle⟩
  · rw [hop, execInstr_BEQ]
    unfold execBEQ
    simp only [pyIdx, List.get?, hv1, hv2, if_neg hne]
  · rw [hop, execInstr_BGT]
    unfold execBGT
    simp only [pyIdx, List.get?, hv1, hv2, if_neg hle]

/-- Witness for C10: `BEQ A, 5, NOPE` with `A = 1` (cell 1 holds 0, so
`0 ≠ 5` and the branch falls through) and `NOPE` undefined: the step
succeeds and only advances the PC. -/
theorem branch_untaken_no_lookup_witness :
    step (parse "A = 1\nBEQ A, 5, NOPE") =
      .ok { parse "A = 1\nBEQ A, 5, NOPE" with
              pc := (parse "A = 1\nBEQ A, 5, NOPE").pc + 1 } :=
  branch_untaken_no_lookup (parse "A = 1\nBEQ A, 5, NOPE")
    ⟨"BEQ A, 5, NOPE", 2⟩ "BEQ" "A, 5, NOPE" "A" "5" "NOPE" 0 5
    rfl (by decide) rfl rfl rfl rfl rfl (Or.inl ⟨rfl, by decide⟩)

/-! ## C4: DIV by zero is fatal, leaves memory alone, reports the line -/

/-- C4: when the `Src2` operand of a `DIV Dest, Src1, Src2` resolves to
0, the executing `step` finishes the machine with a non-empty
`last_error` that embeds the instruction's source line number, and the
entire memory (in particular the cell `Dest` resolves to) is left
unmodified. -/
theorem div_by_zero_fatal (st : PicoState) (instr : InstrData) (p0 r a0 a1 a2 : String)
    (hf : st.is_finished = false) (hn : st.input_needed ≤ 0)
    (hfetch : List.lookup st.pc st.instructions = some instr)
    (hsplit : splitFirst instr.text = [p0, r])
    (hop : pyUpper p0 = "DIV")
    (hargs : argsFrom [r] = [a0, a1, a2])
    (hz : resolve_value st a2 = .ok 0) :
    ∃ st', step st = .ok st' ∧ st'.is_finished = true ∧
      st'.memory = st.memory ∧
      (∃ msg, st'.last_error = "Error line " ++ toString instr.line_no ++ ": " ++ msg) ∧
      st'.last_error ≠ "" := by
  rw [step_exec st instr p0 [r] hf hn hfetch hsplit, hargs, hop, execInstr_DIV]
  unfold execArith
  simp only [pyIdx, List.get?]
  cases h1 : resolve_value st a1 with
  | error e =>
    exact ⟨_, rfl, rfl, rfl, ⟨e, rfl⟩, errLine_ne_empty _ _⟩
  | ok val1 =>
    rw [hz]
    simp only [reduceIte]
    exact ⟨_, rfl, rfl, rfl, ⟨_, rfl⟩, errLine_ne_empty _ _⟩

/-- Witness for C4: `DIV A, A, Z` where `Z = 0` makes `Src2` resolve to
cell 0, which holds 0. -/
theorem div_by_zero_fatal_witness :
    ∃ st', step (parse "Z = 0\nA = 1\nDIV A, A, Z") = .ok st' ∧
      st'.is_finished = true ∧
      st'.memory = (parse "Z = 0\nA = 1\nDIV A, A, Z").memory ∧
      (∃ msg, st'.last_error = "Error line " ++ toString 3 ++ ": " ++ msg) ∧
      st'.last_error ≠ "" :=
  div_by_zero_fatal (parse "Z = 0\nA = 1\nDIV A, A, Z")
    ⟨"DIV A, A, Z", 3⟩ "DIV" "A, A, Z" "A" "A" "Z"
    rfl (by decide) rfl rfl rfl rfl rfl

/-! ## C5: DIV is floor division -/

/-- C5: a `DIV Dest, Src1, Src2` with resolved values `v1`, `v2 ≠ 0`
writes `Int.fdiv v1 v2` — floor division, rounding toward negative
infinity — to the cell `Dest` resolves to; in particular `7 / 2` gives 3
and `-7 / 2` gives `-4`. -/
theorem div_floor_semantics (st : PicoState) (instr : InstrData)
    (p0 r a0 a1 a2 : String) (v1 v2 d : Int)
    (hf : st.is_finished = false) (hn : st.input_needed ≤ 0)
    (hfetch : List.lookup st.pc st.instructions = some instr)
    (hsplit : splitFirst instr.text = [p0, r])
    (hop : pyUpper p0 = "DIV")
    (hargs : argsFrom [r] = [a0, a1, a2])
    (hv1 : resolve_value st a1 = .ok v1)
    (hv2 : resolve_value st a2 = .ok v2)
    (hvz : v2 ≠ 0)
    (hd : resolve_write_target st a0 = .ok d)
    (hdb : 0 ≤ d ∧ d < MEM_SIZE) :
    (∃ st', step st = .ok st' ∧ st'.memory d.toNat = Int.fdiv v1 v2 ∧
      st'.pc = st.pc + 1) ∧
    Int.fdiv 7 2 = 3 ∧ Int.fdiv (-7) 2 = -4 := by
  refine ⟨?_, by decide, by decide⟩
  rw [step_exec st instr p0 [r] hf hn hfetch hsplit, hargs, hop, execInstr_DIV]
  unfold execArith set_value
  simp only [pyIdx, List.get?, hv1, hv2, hd, if_neg hvz, if_pos hdb]
  exact ⟨_, rfl, by simp, rfl⟩

/-- Witness for C5: `DIV R, #7, #2` with `R = 3` writes `3 = ⌊7/2⌋` to
cell 3. -/
theorem div_floor_semantics_witness :
    ((∃ st', step (parse "R = 3\nDIV R, #7, #2") = .ok st' ∧
        st'.memory (3 : Int).toNat = Int.fdiv 7 2 ∧
        st'.pc = (parse "R = 3\nDIV R, #7, #2").pc + 1) ∧
      Int.fdiv 7 2 = 3 ∧ Int.fdiv (-7) 2 = -4) ∧
    0 ≤ (3 : Int) ∧ (3 : Int) < MEM_SIZE ∧ (2 : Int) ≠ 0 :=
  ⟨div_floor_semantics (parse "R = 3\nDIV R, #7, #2")
      ⟨"DIV R, #7, #2", 2⟩ "DIV" "R, #7, #2" "R" "#7" "#2" 7 2 3
      rfl (by decide) rfl rfl rfl rfl rfl rfl (by decide) rfl (by decide),
    by decide, by decide, by decide⟩

/-! ## C7 (amended): IN with non-positive count advances the PC -/

/-- C7 as amended: an `IN` whose count resolves to a value ≤ 0 sets no
suspension state (the state is unchanged) but control falls through to
the default advance, so the PC moves ahead by exactly 1 and the next
instruction — not the same one — is fetched next. -/
theorem in_nonpositive_count_advances (st : PicoState) (instr : InstrData)
    (p0 r a0 a1 : String) (target count : Int)
    (hf : st.is_finished = false) (hn : st.input_needed ≤ 0)
    (hfetch : List.lookup st.pc st.instructions = some instr)
    (hsplit : splitFirst instr.text = [p0, r])
    (hop : pyUpper p0 = "IN")
    (hargs : argsFrom [r] = [a0, a1])
    (ht : resolve_write_target st a0 = .ok target)
    (hc : resolve_value st a1 = .ok count)
    (hcz : count ≤ 0) :
    step st = .ok { st with pc := st.pc + 1 } := by
  rw [step_exec st instr p0 [r] hf hn hfetch hsplit, hargs, hop, execInstr_IN]
  unfold execIN
  simp only [pyIdx, List.get?, ht]
  norm_num
  simp only [hc]
  rw [if_neg (show ¬ (0 : Int) < count by omega)]

/-- Witness for C7 (amended): `IN A, 0` advances the PC from 0 to 1 with
no suspension. -/
theorem in_nonpositive_count_advances_witness :
    step (parse "A = 5\nIN A, 0") =
      .ok { parse "A = 5\nIN A, 0" with pc := (parse "A = 5\nIN A, 0").pc + 1 } :=
  in_nonpositive_count_advances (parse "A = 5\nIN A, 0")
    ⟨"IN A, 0", 2⟩ "IN" "A, 0" "A" "0" 5 0
    rfl (by decide) rfl rfl rfl rfl rfl rfl (by decide)

/-! ## C2: IN suspension and the provide_input sequence -/

/-- A successful `provide_input` call: writes the parsed integer at the
pending destination, bumps the destination, decrements the count, and
advances the PC exactly when the count reaches zero. -/
theorem provide_input_ok (t : PicoState) (s : String) (v : Int)
    (hpos : t.input_needed > 0)
    (hparse : pyInt s = some v)
    (h0 : 0 ≤ t.input_dest_addr) (hub : t.input_dest_addr < MEM_SIZE) :
    provide_input t s = .ok (true,
      if t.input_needed - 1 = 0 then
        { t with memory := fun n => if n = t.input_dest_addr.toNat then v else t.memory n,
                 touched_memory := t.input_dest_addr :: t.touched_memory,
                 input_dest_addr := t.input_dest_addr + 1,
                 input_needed := t.input_needed - 1,
                 pc := t.pc + 1 }
      else
        { t with memory := fun n => if n = t.input_dest_addr.toNat then v else t.memory n,
                 touched_memory := t.input_dest_addr :: t.touched_memory,
                 input_dest_addr := t.input_dest_addr + 1,
                 input_needed := t.input_needed - 1 }) := by
  unfold provide_input memWrite
  rw [if_pos hpos]
  simp only [hparse]
  rw [if_pos ⟨h0, hub⟩]
  dsimp only
  by_cases hz : t.input_needed - 1 = 0
  · rw [if_pos hz, if_pos hz]
  · rw [if_neg hz, if_neg hz]

/-- Feeding `k` parsable input strings into a suspended machine with
enough room: all succeed, the values land in consecutive cells, other
cells are untouched, and the PC advances exactly when the pending count
is exhausted. -/
theorem feedAll_spec : ∀ (strs : List String) (vals : List Int) (t : PicoState),
    strs.mapM pyInt = some vals →
    (strs.length : Int) ≤ t.input_needed →
    0 ≤ t.input_dest_addr →
    t.input_dest_addr + t.input_needed ≤ MEM_SIZE →
    ∃ tF, feedAll t strs = .ok tF ∧
      tF.input_needed = t.input_needed - strs.length ∧
      tF.input_dest_addr = t.input_dest_addr + strs.length ∧
      (∀ j : Nat, j < strs.length → ∀ w, vals.get? j = some w →
        tF.memory (t.input_dest_addr.toNat + j) = w) ∧
      (∀ n : Nat, (n < t.input_dest_addr.toNat ∨ t.input_dest_addr.toNat + strs.length ≤ n) →
        tF.memory n = t.memory n) ∧
      ((strs.length : Int) < t.input_needed → tF.pc = t.pc) ∧
      (0 < t.input_needed → (strs.length : Int) = t.input_needed → tF.pc = t.pc + 1)
  | [], vals, t => by
    intro hm hlen h0 hub
    refine ⟨t, rfl, by simp, by simp, by simp, fun _ _ => rfl, fun _ => rfl, ?_⟩
    intro h1 h2
    simp at h2
    omega
  | s :: ss, vals, t => by
    intro hm hlen h0 hub
    simp only [List.length_cons] at hlen ⊢
    simp only [List.mapM_cons] at hm
    cases hv : pyInt s with
    | none => rw [hv] at hm; simp at hm
    | some v =>
      rw [hv] at hm
      cases hvs : ss.mapM pyInt with
      | none => rw [hvs] at hm; simp at hm
      | some vs =>
        rw [hvs] at hm
        simp at hm
        subst hm
        have hpos : t.input_needed > 0 := by omega
        have hub1 : t.input_dest_addr < MEM_SIZE := by omega
        have hstep := provide_input_ok t s v hpos hv h0 hub1
        unfold feedAll
        rw [hstep]
        by_cases hz : t.input_needed - 1 = 0
        · -- this was the last pending input; ss must be empty
          rw [if_pos hz]
          have hss : ss = [] := by
            have hl0 : (ss.length : Int) = 0 := by omega
            simpa using hl0
          subst hss
          have hvs0 : vs = [] := by
            rw [List.mapM_nil] at hvs
            simpa using hvs
          subst hvs0
          refine ⟨_, rfl, ?_, ?_, ?_, ?_, ?_, ?_⟩
          · show t.input_needed - 1 = t.input_needed - ((0 + 1 : Nat) : Int)
            omega
          · show t.input_dest_addr + 1 = t.input_dest_addr + ((0 + 1 : Nat) : Int)
            omega
          · intro j hj w hw
            have hj0 : j = 0 := by simpa using hj
            subst hj0
            have hwv : w = v := by simpa using hw.symm
            rw [hwv]
            show (if t.input_dest_addr.toNat + 0 = t.input_dest_addr.toNat then v
                  else t.memory (t.input_dest_addr.toNat + 0)) = v
            simp
          · intro n hn
            show (if n = t.input_dest_addr.toNat then v else t.memory n) = t.memory n
            rw [if_neg (by omega)]
          · intro hlt
            exfalso
            simp at hlt
            omega
          · intro _ _
            rfl
        · rw [if_neg hz]
          obtain ⟨tF, hfeed, hni, hda, hmem, hunch, hpc1, hpc2⟩ :=
            feedAll_spec ss vs
              { t with memory := fun n => if n = t.input_dest_addr.toNat then v else t.memory n,
                       touched_memory := t.input_dest_addr :: t.touched_memory,
                       input_dest_addr := t.input_dest_addr + 1,
                       input_needed := t.input_needed - 1 }
              hvs (by dsimp only; omega) (by dsimp only; omega) (by dsimp only; omega)
          dsimp only at hni hda hmem hunch hpc1 hpc2
          have hAn : (t.input_dest_addr + 1).toNat = t.input_dest_addr.toNat + 1 := by omega
          refine ⟨tF, hfeed, ?_, ?_, ?_, ?_, ?_, ?_⟩
          · rw [hni]; omega
          · rw [hda]; push_cast; ring
          · intro j hj w hw
            cases j with
            | zero =>
              have hwv : w = v := by simpa using hw.symm
              have hu := hunch t.input_dest_addr.toNat (by omega)
              rw [hwv, Nat.add_zero, hu, if_pos rfl]
            | succ k =>
              have hk : k < ss.length := by simpa using hj
              have hw' : vs.get? k = some w := by simpa using hw
              have hmk := hmem k hk w hw'
              rw [hAn] at hmk
              rw [show t.input_dest_addr.toNat + 1 + k = t.input_dest_addr.toNat + (k + 1) by omega] at hmk
              simpa using hmk
          · intro n hn
            have hu := hunch n (by omega)
            rw [hu]
            rw [if_neg (by omega)]
          · intro hlt
            have := hpc1 (by push_cast at hlt ⊢; omega)
            rw [this]
          · intro hp hlen2
            have := hpc2 (by omega) (by push_cast at hlen2 ⊢; omega)
            rw [this]


/-- C2: executing `IN X, N` (count resolving to `N > 0`, destination
resolving to `addr`) suspends with `input_needed = N`,
`input_dest_addr = addr` and the PC unmodified; feeding `k ≤ N` integer
inputs then writes the `j`-th value to cell `addr + j` (so the `k`-th
call writes `addr + k - 1`), leaves the PC unmodified while `k < N`, and
advances it by exactly 1 when the `N`-th input arrives. -/
theorem in_suspension_correct (st : PicoState) (instr : InstrData)
    (p0 r a0 a1 : String) (N addr : Int) (strs : List String) (vals : List Int)
    (hf : st.is_finished = false) (hn : st.input_needed ≤ 0)
    (hfetch : List.lookup st.pc st.instructions = some instr)
    (hsplit : splitFirst instr.text = [p0, r])
    (hop : pyUpper p0 = "IN")
    (hargs : argsFrom [r] = [a0, a1])
    (haddr : resolve_write_target st a0 = .ok addr)
    (hN : resolve_value st a1 = .ok N)
    (hNpos : 0 < N)
    (hb0 : 0 ≤ addr) (hbub : addr + N ≤ MEM_SIZE)
    (hvals : strs.mapM pyInt = some vals)
    (hlen : (strs.length : Int) ≤ N) :
    step st = .ok { st with input_needed := N, input_dest_addr := addr } ∧
    ∃ stF, feedAll { st with input_needed := N, input_dest_addr := addr } strs = .ok stF ∧
      stF.input_needed = N - strs.length ∧
      stF.input_dest_addr = addr + strs.length ∧
      (∀ j : Nat, j < strs.length → ∀ w, vals.get? j = some w →
        stF.memory (addr.toNat + j) = w) ∧
      ((strs.length : Int) < N → stF.pc = st.pc) ∧
      ((strs.length : Int) = N → stF.pc = st.pc + 1) := by
  constructor
  · rw [step_exec st instr p0 [r] hf hn hfetch hsplit, hargs, hop, execInstr_IN]
    unfold execIN
    simp only [pyIdx, List.get?, haddr]
    norm_num
    simp only [hN]
    rw [if_pos hNpos]
  · obtain ⟨tF, hfeed, h1, h2, h3, h4, h5, h6⟩ :=
      feedAll_spec strs vals { st with input_needed := N, input_dest_addr := addr }
        hvals (by dsimp only; omega) (by dsimp only; omega) (by dsimp only; omega)
    dsimp only at h1 h2 h3 h4 h5 h6
    exact ⟨tF, hfeed, h1, h2, h3, h5, fun hEq => h6 hNpos hEq⟩

/-- Witness for C2: `IN X, 3` with `X = 100`, feeding the two inputs
`7` and `8` (k = 2 < N = 3). -/
theorem in_suspension_correct_witness :
    (step (parse "X = 100\nIN X, 3") =
      .ok { parse "X = 100\nIN X, 3" with input_needed := 3, input_dest_addr := 100 } ∧
    ∃ stF, feedAll
        { parse "X = 100\nIN X, 3" with input_needed := 3, input_dest_addr := 100 }
        ["7", "8"] = .ok stF ∧
      stF.input_needed = 3 - (["7", "8"] : List String).length ∧
      stF.input_dest_addr = 100 + (["7", "8"] : List String).length ∧
      (∀ j : Nat, j < (["7", "8"] : List String).length → ∀ w,
        ([7, 8] : List Int).get? j = some w → stF.memory ((100 : Int).toNat + j) = w) ∧
      (((["7", "8"] : List String).length : Int) < 3 → stF.pc = (parse "X = 100\nIN X, 3").pc) ∧
      (((["7", "8"] : List String).length : Int) = 3 →
        stF.pc = (parse "X = 100\nIN X, 3").pc + 1)) :=
  in_suspension_correct (parse "X = 100\nIN X, 3") ⟨"IN X, 3", 2⟩
    "IN" "X, 3" "X" "3" 3 100 ["7", "8"] [7, 8]
    rfl (by decide) rfl rfl rfl rfl rfl rfl (by decide) (by decide) (by decide)
    rfl (by decide)

/-! ## C3 (amended): where exceptions can and cannot escape -/

/-- C3 as amended: (1) `step` never lets an exception escape (for any
state whose fetched instruction text tokenizes to a non-empty list —
`parse` only stores non-blank texts); (2) `provide_input` with
non-integer text returns `false` and leaves the state unchanged; (3) a
pending `provide_input` with an integer and an in-bounds destination
(`-65536 ≤ input_dest_addr < 65536`) also returns normally.  Outside
those bounds `provide_input` raises (see the counterexample). -/
theorem engine_boundary_amended :
    (∀ st : PicoState,
      (∀ instr, List.lookup st.pc st.instructions = some instr → splitFirst instr.text ≠ []) →
      ∃ st', step st = .ok st') ∧
    (∀ (st : PicoState) (s : String), pyInt s = none →
      provide_input st s = .ok (false, st)) ∧
    (∀ (st : PicoState) (s : String) (v : Int), st.input_needed > 0 →
      pyInt s = some v → -MEM_SIZE ≤ st.input_dest_addr → st.input_dest_addr < MEM_SIZE →
      ∃ b st', provide_input st s = .ok (b, st')) := by
  refine ⟨?_, ?_, ?_⟩
  · intro st hw
    by_cases h : st.is_finished ∨ st.input_needed > 0
    · exact ⟨st, by unfold step; rw [if_pos h]⟩
    · simp only [Bool.not_eq_true, not_or, not_lt] at h
      have hf : st.is_finished = false := h.1
      cases hfetch : List.lookup st.pc st.instructions with
      | none =>
        refine ⟨{ st with last_error := endMsg st.pc, is_finished := true }, ?_⟩
        unfold step
        rw [if_neg (by simp [hf]; omega), hfetch]
      | some instr =>
        cases hsp : splitFirst instr.text with
        | nil => exact absurd hsp (hw instr hfetch)
        | cons p0 rest =>
          cases hex : execInstr st (pyUpper p0) (argsFrom rest) (st.pc + 1) with
          | normal st2 npc =>
            exact ⟨_, by rw [step_exec st instr p0 rest hf h.2 hfetch hsp, hex]⟩
          | suspend st2 =>
            exact ⟨_, by rw [step_exec st instr p0 rest hf h.2 hfetch hsp, hex]⟩
          | raised st2 e =>
            exact ⟨_, by rw [step_exec st instr p0 rest hf h.2 hfetch hsp, hex]⟩
  · intro st s hps
    by_cases h : st.input_needed > 0
    · unfold provide_input
      rw [if_pos h]
      simp only [hps]
    · unfold provide_input
      rw [if_neg h]
  · intro st s v hpos hps hlb hub
    unfold provide_input memWrite
    rw [if_pos hpos]
    simp only [hps]
    by_cases h0 : 0 ≤ st.input_dest_addr ∧ st.input_dest_addr < MEM_SIZE
    · rw [if_pos h0]
      dsimp only
      by_cases hz : st.input_needed - 1 = 0
      · rw [if_pos hz]; exact ⟨_, _, rfl⟩
      · rw [if_neg hz]; exact ⟨_, _, rfl⟩
    · rw [if_neg h0, if_pos ⟨hlb, by omega⟩]
      dsimp only
      by_cases hz : st.input_needed - 1 = 0
      · rw [if_pos hz]; exact ⟨_, _, rfl⟩
      · rw [if_neg hz]; exact ⟨_, _, rfl⟩

/-- Witness for C3 (amended): part 1 at `parse "STOP"`, part 2 on the
non-integer text `"abc"`, part 3 on a pending input at cell 1. -/
theorem engine_boundary_amended_witness :
    (∃ st', step (parse "STOP") = .ok st') ∧
    provide_input initState "abc" = .ok (false, initState) ∧
    (∃ b st', provide_input
      { initState with input_needed := 2, input_dest_addr := 1 } "7" = .ok (b, st')) :=
  ⟨engine_boundary_amended.1 (parse "STOP")
      (by
        intro instr h
        rw [show List.lookup (parse "STOP").pc (parse "STOP").instructions
              = some ⟨"STOP", 1⟩ from rfl] at h
        injection h with h2
        rw [← h2]
        decide),
    engine_boundary_amended.2.1 initState "abc" rfl,
    engine_boundary_amended.2.2 _ "7" 7 (by decide) rfl (by decide) (by decide)⟩

/-! ## C8 (amended): the OUT output line -/

/-- `memRead` on an index in `-65536..65535` succeeds, reading the
wrapped cell. -/
theorem memRead_wrap (m : Nat → Int) (j : Int) (hlb : -MEM_SIZE ≤ j) (hub : j < MEM_SIZE) :
    memRead m j = .ok (m (pyWrapIdx j)) := by
  unfold memRead pyWrapIdx
  by_cases h0 : 0 ≤ j
  · rw [if_pos ⟨h0, hub⟩, if_pos h0]
  · rw [if_neg (by omega), if_pos (by omega), if_neg h0]

/-- The `OUT` loop never raises when `start ≥ -65536` and produces
exactly the `outCells` values appended to the accumulator. -/
theorem outLoop_eq (mem : Nat → Int) (start : Int) (hlb : -MEM_SIZE ≤ start) :
    ∀ (k i : Nat) (acc : List String),
      outLoop mem start k i acc = .ok (acc ++ outCells mem start k i)
  | 0, i, acc => by
    unfold outLoop outCells
    simp
  | k + 1, i, acc => by
    unfold outLoop outCells
    by_cases h : start + (i : Int) < MEM_SIZE
    · rw [if_pos h, if_pos h, memRead_wrap mem _ (by omega) h]
      dsimp only
      rw [outLoop_eq mem start hlb k (i + 1) (acc ++ [toString (mem (pyWrapIdx (start + (i : Int))))])]
      simp
    · rw [if_neg h, if_neg h, outLoop_eq mem start hlb k (i + 1) acc]

/-- C8 as amended: an `OUT Src, Count` whose start address and count
resolve (with `start ≥ -65536`) appends exactly one line to the output
buffer — the space-separated values of positions `start..start+Count-1`
with position `< 65536` (positions `≥ 65536` are skipped), a negative
position `p` being read with wrap-around as cell `p + 65536` — and then
only advances the PC. -/
theorem out_line_semantics (st : PicoState) (instr : InstrData)
    (p0 r a0 a1 : String) (start count : Int)
    (hf : st.is_finished = false) (hn : st.input_needed ≤ 0)
    (hfetch : List.lookup st.pc st.instructions = some instr)
    (hsplit : splitFirst instr.text = [p0, r])
    (hop : pyUpper p0 = "OUT")
    (hargs : argsFrom [r] = [a0, a1])
    (hstart : outStart st a0 = .ok start)
    (hcount : resolve_value st a1 = .ok count)
    (hlb : -MEM_SIZE ≤ start) :
    step st = .ok { st with
      output_buffer := st.output_buffer ++
        [String.intercalate " " (outCells st.memory start count.toNat 0)],
      pc := st.pc + 1 } := by
  rw [step_exec st instr p0 [r] hf hn hfetch hsplit, hargs, hop, execInstr_OUT]
  unfold execOUT
  simp only [pyIdx, List.get?, hstart]
  norm_num
  simp only [hcount]
  rw [outLoop_eq st.memory start hlb count.toNat 0 []]
  simp only [List.nil_append]

/-- Witness for C8 (amended): `OUT A, 2` with `A = 5` prints cells 5
and 6. -/
theorem out_line_semantics_witness :
    step (parse "A = 5\nOUT A, 2") = .ok { parse "A = 5\nOUT A, 2" with
      output_buffer := (parse "A = 5\nOUT A, 2").output_buffer ++
        [String.intercalate " " (outCells (parse "A = 5\nOUT A, 2").memory 5 (2 : Int).toNat 0)],
      pc := (parse "A = 5\nOUT A, 2").pc + 1 } :=
  out_line_semantics (parse "A = 5\nOUT A, 2") ⟨"OUT A, 2", 2⟩
    "OUT" "A, 2" "A" "2" 5 2
    rfl (by decide) rfl rfl rfl rfl rfl rfl (by decide)

/-! ## C6: the default PC advance -/

/-- A normal (fall-through) `MOV` outcome carries the default
`next_pc`. -/
theorem execMOV_normal {st : PicoState} {args : List String} {n : Int}
    {st2 : PicoState} {npc : Int}
    (h : execMOV st args n = .normal st2 npc) : npc = n := by
  unfold execMOV at h
  iterate 25 (all_goals (first | split at h | dsimp only at h | skip))
  all_goals simp_all

theorem execArith_normal {st : PicoState} {opcode : String} {args : List String} {n : Int}
    {st2 : PicoState} {npc : Int}
    (h : execArith st opcode args n = .normal st2 npc) : npc = n := by
  unfold execArith at h
  iterate 25 (all_goals (first | split at h | dsimp only at h | skip))
  all_goals simp_all

theorem execIN_normal {st : PicoState} {args : List String} {n : Int}
    {st2 : PicoState} {npc : Int}
    (h : execIN st args n = .normal st2 npc) : npc = n := by
  unfold execIN at h
  iterate 25 (all_goals (first | split at h | dsimp only at h | skip))
  all_goals simp_all

theorem execOUT_normal {st : PicoState} {args : List String} {n : Int}
    {st2 : PicoState} {npc : Int}
    (h : execOUT st args n = .normal st2 npc) : npc = n := by
  unfold execOUT at h
  iterate 25 (all_goals (first | split at h | dsimp only at h | skip))
  all_goals simp_all

theorem execSTOP_normal {st : PicoState} {args : List String} {n : Int}
    {st2 : PicoState} {npc : Int}
    (h : execSTOP st args n = .normal st2 npc) : npc = n := by
  unfold execSTOP at h
  iterate 25 (all_goals (first | split at h | dsimp only at h | skip))
  all_goals simp_all

theorem execBEQ_normal_untaken {st : PicoState} {args : List String} {n : Int}
    {st2 : PicoState} {npc : Int} {a0 a1 : String} {v1 v2 : Int}
    (hg0 : args.get? 0 = some a0) (hg1 : args.get? 1 = some a1)
    (hv1 : resolve_value st a0 = .ok v1) (hv2 : resolve_value st a1 = .ok v2)
    (hne : v1 ≠ v2)
    (h : execBEQ st args n = .normal st2 npc) : npc = n := by
  unfold execBEQ at h
  simp only [pyIdx, hg0, hg1, hv1, hv2] at h
  iterate 10 (all_goals (first | split at h | dsimp only at h | skip))
  all_goals simp_all

theorem execBGT_normal_untaken {st : PicoState} {args : List String} {n : Int}
    {st2 : PicoState} {npc : Int} {a0 a1 : String} {v1 v2 : Int}
    (hg0 : args.get? 0 = some a0) (hg1 : args.get? 1 = some a1)
    (hv1 : resolve_value st a0 = .ok v1) (hv2 : resolve_value st a1 = .ok v2)
    (hle : ¬ v1 > v2)
    (h : execBGT st args n = .normal st2 npc) : npc = n := by
  unfold execBGT at h
  simp only [pyIdx, hg0, hg1, hv1, hv2] at h
  iterate 10 (all_goals (first | split at h | dsimp only at h | skip))
  all_goals simp_all

/-- C6: for a step that executes an instruction whose dispatch falls
through normally (no raised error, no IN suspension), when the
instruction is not BEQ/BGT/JSR/RTS — or is an untaken BEQ/BGT — the PC
advances by exactly 1.  Unrecognized opcodes match no dispatch branch,
act as silent no-ops and also advance the PC. -/
theorem pc_advance_default (st : PicoState) (instr : InstrData) (p0 : String)
    (rest : List String)
    (hf : st.is_finished = false) (hn : st.input_needed ≤ 0)
    (hfetch : List.lookup st.pc st.instructions = some instr)
    (hsplit : splitFirst instr.text = p0 :: rest)
    (hnorm : (execInstr st (pyUpper p0) (argsFrom rest) (st.pc + 1)).isNormal = true)
    (hside :
      (pyUpper p0 ≠ "BEQ" ∧ pyUpper p0 ≠ "BGT" ∧ pyUpper p0 ≠ "JSR" ∧ pyUpper p0 ≠ "RTS") ∨
      (pyUpper p0 = "BEQ" ∧ ∃ a0 a1 v1 v2, (argsFrom rest).get? 0 = some a0 ∧
        (argsFrom rest).get? 1 = some a1 ∧ resolve_value st a0 = .ok v1 ∧
        resolve_value st a1 = .ok v2 ∧ v1 ≠ v2) ∨
      (pyUpper p0 = "BGT" ∧ ∃ a0 a1 v1 v2, (argsFrom rest).get? 0 = some a0 ∧
        (argsFrom rest).get? 1 = some a1 ∧ resolve_value st a0 = .ok v1 ∧
        resolve_value st a1 = .ok v2 ∧ ¬ v1 > v2)) :
    ∃ st', step st = .ok st' ∧ st'.pc = st.pc + 1 := by
  cases hex : execInstr st (pyUpper p0) (argsFrom rest) (st.pc + 1) with
  | suspend st2 => rw [hex] at hnorm; simp [StepOutcome.isNormal] at hnorm
  | raised st2 e => rw [hex] at hnorm; simp [StepOutcome.isNormal] at hnorm
  | normal st2 npc =>
    refine ⟨{ st2 with pc := npc }, ?_, ?_⟩
    · rw [step_exec st instr p0 rest hf hn hfetch hsplit, hex]
    · show npc = st.pc + 1
      rcases hside with ⟨h1, h2, h3, h4⟩ |
        ⟨hop, a0, a1, v1, v2, hg0, hg1, hv1, hv2, hne⟩ |
        ⟨hop, a0, a1, v1, v2, hg0, hg1, hv1, hv2, hle⟩
      · unfold execInstr at hex
        split_ifs at hex
        all_goals
          first
            | exact execMOV_normal hex
            | exact execArith_normal hex
            | exact execIN_normal hex
            | exact execOUT_normal hex
            | exact execSTOP_normal hex
            | (injection hex with h8 h9; exact h9.symm)
            | simp_all
      · have hex' : execBEQ st (argsFrom rest) (st.pc + 1) = .normal st2 npc := by
          rw [← execInstr_BEQ, ← hop]
          exact hex
        exact execBEQ_normal_untaken hg0 hg1 hv1 hv2 hne hex'
      · have hex' : execBGT st (argsFrom rest) (st.pc + 1) = .normal st2 npc := by
          rw [← execInstr_BGT, ← hop]
          exact hex
        exact execBGT_normal_untaken hg0 hg1 hv1 hv2 hle hex'

/-- Witness for C6: the unrecognized opcode `NOP` is a silent no-op
that advances the PC by 1. -/
theorem pc_advance_default_witness :
    (∃ st', step (parse "A = 1\nNOP") = .ok st' ∧
      st'.pc = (parse "A = 1\nNOP").pc + 1) :=
  pc_advance_default (parse "A = 1\nNOP") ⟨"NOP", 2⟩ "NOP" []
    rfl (by decide) rfl rfl (by decide)
    (Or.inl ⟨by decide, by decide, by decide, by decide⟩)

end Pico
